import Mathlib

/-!
Verification development for the MBU_Udskrivning_Fritvalg RPA worker.

Shallow embedding of the code under `robot_framework/`:
* the EDI portal step pipeline (`edi_portal_handler`),
* CPR-to-birthdate conversion (`helper_functions.cpr_to_birthdate`),
* ZIP splitting (`zip_handler.split_zip`),
* the sent-receipt table scan (`edi_portal_get_journal_sent_receip`),
* polling waits (`wait_for_control`, `wait_for_control_to_disappear`),
* the upload progress loop (`edi_portal_upload_files`),
* presence-gated creation actions (`create_event_if_not_created`,
  `create_booking_reminders`).

Side-effecting UI / database calls are abstracted as outcome streams or
lookup functions supplied as parameters; the control flow around them is
translated statement by statement from the Python source.
-/

/-- Mapping an index shift over a nonempty range, split at the head. -/
theorem map_add_range_succ (i m : Nat) :
    (List.range (m + 1)).map (· + i) = i :: (List.range m).map (· + (i + 1)) := by
  rw [List.range_succ_eq_map]
  simp only [List.map_cons, List.map_map, Nat.zero_add]
  refine congrArg (i :: ·) (List.map_congr_left fun a _ => ?_)
  simp only [Function.comp_apply, Nat.succ_eq_add_one]
  omega

namespace EdiPipeline

/-- Outcome of invoking one pipeline step on the shared context:
in the Python source a step is a callable returning a (possibly `None`)
value whose truthiness is tested, or raising an exception.  `ok b` models a
normal return whose truthiness is `b`; `err e` models a raised exception
with message `e`. -/
inductive StepResult where
  | ok : Bool → StepResult
  | err : String → StepResult
deriving DecidableEq, Repr

/-- Whether a step behaviour models a raised exception. -/
def StepResult.isErr : StepResult → Bool
  | .err _ => true
  | .ok _ => false

/-- The first loop of `edi_portal_handler` (lines 162-179): iterate over
`pipeline[:-2]` with a `skip_steps` flag; a truthy return sets the flag, a
raise aborts, flagged steps are skipped (not executed).  Returns the list
of executed step indices (starting at `i`) and, if a step raised, the pair
of the failing step index and the original exception message (the
`RuntimeError` wrapping of line 177 is modelled by this pair). -/
def runMain : List StepResult → Nat → Bool → List Nat × Option (Nat × String)
  | [], _, _ => ([], none)
  | s :: rest, i, skip =>
    if skip then
      runMain rest (i + 1) skip
    else
      match s with
      | .err e => ([i], some (i, e))
      | .ok b =>
        let r := runMain rest (i + 1) b
        (i :: r.1, r.2)

/-- The second loop of `edi_portal_handler` (lines 182-188): run
`pipeline[-2:]` unconditionally, aborting on a raise with the failing step
index and the original exception message. -/
def runTail : List StepResult → Nat → List Nat × Option (Nat × String)
  | [], _ => ([], none)
  | .ok _ :: rest, i =>
    let r := runTail rest (i + 1)
    (i :: r.1, r.2)
  | .err e :: _, i => ([i], some (i, e))

/-- Observable outcome of one run of `edi_portal_handler`'s step loops:
which step indices were executed, and the wrapped failure (failing step
identity together with the original exception message) if one raised. -/
structure RunResult where
  executed : List Nat
  failure : Option (Nat × String)
deriving DecidableEq, Repr

/-- `edi_portal_handler`'s execution of a pipeline of step behaviours:
`pipeline[:-2]` with the skip flag, then (only if the first loop did not
raise) `pipeline[-2:]` unconditionally.  Python's `pipeline[:-2]` and
`pipeline[-2:]` are `take (n - 2)` and `drop (n - 2)` with truncated
subtraction, which agrees with Python slicing for every length. -/
def edi_run (steps : List StepResult) : RunResult :=
  let n := steps.length
  let m := runMain (steps.take (n - 2)) 0 false
  match m.2 with
  | some f => ⟨m.1, some f⟩
  | none =>
    let t := runTail (steps.drop (n - 2)) (n - 2)
    ⟨m.1 ++ t.1, t.2⟩

/-- A skipped region executes nothing and never fails. -/
theorem runMain_skip (l : List StepResult) (i : Nat) :
    runMain l i true = ([], none) := by
  induction l generalizing i with
  | nil => rfl
  | cons s rest ih => simp [runMain, ih]

/-- Closed form of the main loop when no step raises: the executed indices
are the initial segment up to and including the first truthy step (all of
the region when none is truthy), shifted by the start index. -/
theorem runMain_no_err (l : List StepResult) (i : Nat)
    (h : ∀ s ∈ l, s.isErr = false) :
    runMain l i false =
      ((List.range (min (l.findIdx (· == StepResult.ok true) + 1) l.length)).map
        (· + i), none) := by
  induction l generalizing i with
  | nil => simp [runMain]
  | cons s rest ih =>
    match s with
    | .err e => simpa [StepResult.isErr] using h (.err e) (List.mem_cons_self _ _)
    | .ok b =>
      cases b with
      | false =>
        have hrest : ∀ s ∈ rest, s.isErr = false :=
          fun s hs => h s (List.mem_cons_of_mem _ hs)
        have hfind : (StepResult.ok false :: rest).findIdx (· == StepResult.ok true)
            = rest.findIdx (· == StepResult.ok true) + 1 := by
          simp only [List.findIdx_cons]
          rfl
        have hm : min (rest.findIdx (· == StepResult.ok true) + 1 + 1)
            (rest.length + 1)
            = min (rest.findIdx (· == StepResult.ok true) + 1) rest.length + 1 := by
          omega
        simp [runMain, ih (i + 1) hrest, hfind, hm, map_add_range_succ]
      | true =>
        have hfind : (StepResult.ok true :: rest).findIdx (· == StepResult.ok true)
            = 0 := by
          simp only [List.findIdx_cons]
          rfl
        simp [runMain, runMain_skip, hfind, List.range_succ]

/-- Closed form of the tail loop when neither of its steps raises: every
step executes, in order. -/
theorem runTail_no_err (l : List StepResult) (i : Nat)
    (h : ∀ s ∈ l, s.isErr = false) :
    runTail l i = ((List.range l.length).map (· + i), none) := by
  induction l generalizing i with
  | nil => simp [runTail]
  | cons s rest ih =>
    match s with
    | .err e => simpa [StepResult.isErr] using h (.err e) (List.mem_cons_self _ _)
    | .ok b =>
      have hrest : ∀ s ∈ rest, s.isErr = false :=
        fun s hs => h s (List.mem_cons_of_mem _ hs)
      simp [runTail, ih (i + 1) hrest, map_add_range_succ]

/-- Executed indices of the main loop lie in `[i, i + length)`. -/
theorem runMain_exec_bounds (l : List StepResult) (i : Nat) (sk : Bool) :
    ∀ j ∈ (runMain l i sk).1, i ≤ j ∧ j < i + l.length := by
  induction l generalizing i sk with
  | nil => simp [runMain]
  | cons s rest ih =>
    intro j hj
    cases sk with
    | true =>
      rw [runMain_skip] at hj
      simp at hj
    | false =>
      match s with
      | .err e =>
        simp only [runMain, Bool.false_eq_true, if_false, List.mem_singleton] at hj
        subst hj
        simp only [List.length_cons]
        omega
      | .ok b =>
        simp only [runMain, Bool.false_eq_true, if_false, List.mem_cons] at hj
        simp only [List.length_cons]
        rcases hj with rfl | hj
        · omega
        · have := ih (i + 1) b j hj
          omega

/-- If the main loop records a failure, the failing step is an `err` step
of the region (at offset `j - i`), it was executed, and it is the last
executed index. -/
theorem runMain_fail_sound (l : List StepResult) (i : Nat) (sk : Bool)
    (j : Nat) (e : String) (hf : (runMain l i sk).2 = some (j, e)) :
    l[(j - i)]? = some (.err e) ∧ i ≤ j ∧ j ∈ (runMain l i sk).1 ∧
      ∀ x ∈ (runMain l i sk).1, x ≤ j := by
  induction l generalizing i sk with
  | nil => simp [runMain] at hf
  | cons s rest ih =>
    cases sk with
    | true =>
      rw [runMain_skip] at hf
      simp at hf
    | false =>
      match s with
      | .err e0 =>
        simp only [runMain, Bool.false_eq_true, if_false] at hf ⊢
        simp only [Option.some.injEq, Prod.mk.injEq] at hf
        obtain ⟨rfl, rfl⟩ := hf
        simp
      | .ok b =>
        simp only [runMain, Bool.false_eq_true, if_false] at hf ⊢
        obtain ⟨hget, hij, hmem, hmax⟩ := ih (i + 1) b hf
        refine ⟨?_, by omega, by simp [hmem], ?_⟩
        · have h1 : j - i = (j - (i + 1)) + 1 := by omega
          rw [h1]
          simpa using hget
        · intro x hx
          simp only [List.mem_cons] at hx
          rcases hx with rfl | hx
          · omega
          · exact hmax x hx

/-- If an executed main-loop index points at an `err` step, the loop's
recorded failure is exactly that index with that message. -/
theorem runMain_fail_complete (l : List StepResult) (i : Nat) (sk : Bool)
    (j : Nat) (e : String) (hmem : j ∈ (runMain l i sk).1)
    (hget : l[(j - i)]? = some (.err e)) :
    (runMain l i sk).2 = some (j, e) := by
  induction l generalizing i sk with
  | nil => simp [runMain] at hmem
  | cons s rest ih =>
    cases sk with
    | true =>
      rw [runMain_skip] at hmem
      simp at hmem
    | false =>
      match s with
      | .err e0 =>
        simp only [runMain, Bool.false_eq_true, if_false, List.mem_singleton]
          at hmem ⊢
        subst hmem
        simp at hget
        simp [hget]
      | .ok b =>
        simp only [runMain, Bool.false_eq_true, if_false, List.mem_cons] at hmem ⊢
        rcases hmem with rfl | hmem
        · simp at hget
        · have hji : i + 1 ≤ j := (runMain_exec_bounds rest (i + 1) b j hmem).1
          have h1 : j - i = (j - (i + 1)) + 1 := by omega
          rw [h1] at hget
          simp only [List.getElem?_cons_succ] at hget
          exact ih (i + 1) b hmem hget

/-- Executed indices of the tail loop lie in `[i, i + length)`. -/
theorem runTail_exec_bounds (l : List StepResult) (i : Nat) :
    ∀ j ∈ (runTail l i).1, i ≤ j ∧ j < i + l.length := by
  induction l generalizing i with
  | nil => simp [runTail]
  | cons s rest ih =>
    intro j hj
    match s with
    | .err e =>
      simp only [runTail, List.mem_singleton] at hj
      subst hj
      simp only [List.length_cons]
      omega
    | .ok b =>
      simp only [runTail, List.mem_cons] at hj
      simp only [List.length_cons]
      rcases hj with rfl | hj
      · omega
      · have := ih (i + 1) j hj
        omega

/-- If the tail loop records a failure, the failing step is an `err` step
of the tail, it was executed, and it is the last executed index. -/
theorem runTail_fail_sound (l : List StepResult) (i : Nat)
    (j : Nat) (e : String) (hf : (runTail l i).2 = some (j, e)) :
    l[(j - i)]? = some (.err e) ∧ i ≤ j ∧ j ∈ (runTail l i).1 ∧
      ∀ x ∈ (runTail l i).1, x ≤ j := by
  induction l generalizing i with
  | nil => simp [runTail] at hf
  | cons s rest ih =>
    match s with
    | .err e0 =>
      simp only [runTail, Option.some.injEq, Prod.mk.injEq] at hf ⊢
      obtain ⟨rfl, rfl⟩ := hf
      simp
    | .ok b =>
      simp only [runTail] at hf ⊢
      obtain ⟨hget, hij, hmem, hmax⟩ := ih (i + 1) hf
      refine ⟨?_, by omega, by simp [hmem], ?_⟩
      · have h1 : j - i = (j - (i + 1)) + 1 := by omega
        rw [h1]
        simpa using hget
      · intro x hx
        simp only [List.mem_cons] at hx
        rcases hx with rfl | hx
        · omega
        · exact hmax x hx

/-- If an executed tail-loop index points at an `err` step, the loop's
recorded failure is exactly that index with that message. -/
theorem runTail_fail_complete (l : List StepResult) (i : Nat)
    (j : Nat) (e : String) (hmem : j ∈ (runTail l i).1)
    (hget : l[(j - i)]? = some (.err e)) :
    (runTail l i).2 = some (j, e) := by
  induction l generalizing i with
  | nil => simp [runTail] at hmem
  | cons s rest ih =>
    match s with
    | .err e0 =>
      simp only [runTail, List.mem_singleton] at hmem ⊢
      subst hmem
      simp at hget
      simp [hget]
    | .ok b =>
      simp only [runTail, List.mem_cons] at hmem ⊢
      rcases hmem with rfl | hmem
      · simp at hget
      · have hji : i + 1 ≤ j := (runTail_exec_bounds rest (i + 1) j hmem).1
        have h1 : j - i = (j - (i + 1)) + 1 := by omega
        rw [h1] at hget
        simp only [List.getElem?_cons_succ] at hget
        exact ih (i + 1) hmem hget

end EdiPipeline

namespace Claims

open EdiPipeline

/-- C1: in `edi_portal_handler`, when no step raises, the steps before the
final two execute in order from the start; as soon as one of them returns a
truthy value every later main-region step is bypassed (the executed main
indices are exactly `range (min (firstTruthy + 1) (n - 2))`), and the final
two steps (`n - 2` and `n - 1`) execute in every such run, regardless of
any truthy return. -/
theorem edi_pipeline_order_skip_tail (steps : List StepResult)
    (hn : 2 ≤ steps.length) (h : ∀ s ∈ steps, s.isErr = false) :
    (edi_run steps).executed =
      List.range (min
        ((steps.take (steps.length - 2)).findIdx (· == StepResult.ok true) + 1)
        (steps.length - 2)) ++ [steps.length - 2, steps.length - 1]
    ∧ (edi_run steps).failure = none := by
  have hmain : ∀ s ∈ steps.take (steps.length - 2), s.isErr = false :=
    fun s hs => h s (List.mem_of_mem_take hs)
  have htail : ∀ s ∈ steps.drop (steps.length - 2), s.isErr = false :=
    fun s hs => h s (List.mem_of_mem_drop hs)
  have hmlen : (steps.take (steps.length - 2)).length = steps.length - 2 := by
    rw [List.length_take]
    omega
  have hdlen : (steps.drop (steps.length - 2)).length = 2 := by
    rw [List.length_drop]
    omega
  have h2 : (List.range 2).map (· + (steps.length - 2))
      = [steps.length - 2, steps.length - 1] := by
    rw [show List.range 2 = [0, 1] from rfl]
    simp only [List.map_cons, List.map_nil, Nat.zero_add, List.cons.injEq,
      and_true, true_and]
    omega
  simp only [edi_run, runMain_no_err _ 0 hmain, runTail_no_err _ _ htail,
    hmlen, hdlen, h2]
  exact ⟨by simp, trivial⟩

/-- Witness for C1 at a concrete 5-step pipeline whose second step is
truthy: steps 0 and 1 run, step 2 is skipped, the final two (3 and 4)
run. -/
theorem edi_pipeline_order_skip_tail_witness :
    (edi_run [.ok false, .ok true, .ok false, .ok false, .ok false]).executed
      = [0, 1, 3, 4]
    ∧ (edi_run [.ok false, .ok true, .ok false, .ok false, .ok false]).failure
      = none := by
  have h := edi_pipeline_order_skip_tail
    [.ok false, .ok true, .ok false, .ok false, .ok false] (by decide) (by decide)
  refine ⟨?_, h.2⟩
  rw [h.1]
  rfl

/-- C2 counterexample: for the 5-step pipeline in which step 2 (1-based)
returns true and no step raises, the claim "steps 3 and 4 do not execute,
and the final two steps (4 and 5) do execute" is false on the code: step 4
(index 3) is one of the always-run final two and does execute. -/
theorem edi_pipeline_five_step_counterexample :
    ¬ ((2 ∉ (edi_run [.ok false, .ok true, .ok false, .ok false, .ok false]).executed
        ∧ 3 ∉ (edi_run [.ok false, .ok true, .ok false, .ok false, .ok false]).executed)
       ∧ (3 ∈ (edi_run [.ok false, .ok true, .ok false, .ok false, .ok false]).executed
        ∧ 4 ∈ (edi_run [.ok false, .ok true, .ok false, .ok false, .ok false]).executed)) := by
  decide

/-- C2 amended: for every pipeline of exactly 5 steps in which step 2
(1-based) returns true and no step raises, step 3 (index 2) does not
execute, while the final two steps of the sequence — steps 4 and 5
(indices 3 and 4) — do execute. -/
theorem edi_pipeline_five_step_amended (b1 b3 b4 b5 : Bool) :
    2 ∉ (edi_run [.ok b1, .ok true, .ok b3, .ok b4, .ok b5]).executed
    ∧ 3 ∈ (edi_run [.ok b1, .ok true, .ok b3, .ok b4, .ok b5]).executed
    ∧ 4 ∈ (edi_run [.ok b1, .ok true, .ok b3, .ok b4, .ok b5]).executed
    ∧ (edi_run [.ok b1, .ok true, .ok b3, .ok b4, .ok b5]).failure = none := by
  cases b1 <;> cases b3 <;> cases b4 <;> cases b5 <;> decide

/-- C3: a run of `edi_portal_handler` propagates the failure `(j, e)` —
the failing step's identity wrapped together with the original exception —
exactly when step `j` was executed and its behaviour was to raise `e`; and
when that happens no step after `j` executes (every executed index is at
most `j`), in both the main region and the final two. -/
theorem edi_pipeline_failure_wraps_and_stops (steps : List StepResult)
    (j : Nat) (e : String) :
    ((edi_run steps).failure = some (j, e) ↔
      j ∈ (edi_run steps).executed ∧ steps[j]? = some (.err e))
    ∧ ((edi_run steps).failure = some (j, e) →
        ∀ x ∈ (edi_run steps).executed, x ≤ j) := by
  have hmlen : (steps.take (steps.length - 2)).length ≤ steps.length - 2 := by
    rw [List.length_take]
    omega
  simp only [edi_run]
  cases hm : (runMain (steps.take (steps.length - 2)) 0 false).2 with
  | some f =>
    obtain ⟨j0, e0⟩ := f
    obtain ⟨hget, _, hmem, hmax⟩ :=
      runMain_fail_sound (steps.take (steps.length - 2)) 0 false j0 e0 hm
    have hj0lt : j0 < steps.length - 2 := by
      have := runMain_exec_bounds (steps.take (steps.length - 2)) 0 false j0 hmem
      omega
    have hbridge : steps[j0]? = some (StepResult.err e0) := by
      rw [← hget]
      simp only [Nat.sub_zero]
      rw [List.getElem?_take, if_pos hj0lt]
    constructor
    · constructor
      · intro hf
        simp only [Option.some.injEq, Prod.mk.injEq] at hf
        obtain ⟨rfl, rfl⟩ := hf
        exact ⟨hmem, hbridge⟩
      · rintro ⟨hjmem, hjget⟩
        have hjlt : j < (steps.take (steps.length - 2)).length := by
          have := runMain_exec_bounds (steps.take (steps.length - 2)) 0 false j hjmem
          omega
        have hjget2 : (steps.take (steps.length - 2))[j - 0]?
            = some (StepResult.err e) := by
          simp only [Nat.sub_zero]
          rw [List.getElem?_take, if_pos (by omega)]
          exact hjget
        have := runMain_fail_complete (steps.take (steps.length - 2)) 0 false
          j e hjmem hjget2
        rw [hm] at this
        simp only [Option.some.injEq, Prod.mk.injEq] at this
        simp [this.1, this.2]
    · intro hf x hx
      simp only [Option.some.injEq, Prod.mk.injEq] at hf
      obtain ⟨rfl, rfl⟩ := hf
      exact hmax x hx
  | none =>
    constructor
    · constructor
      · intro hf
        obtain ⟨hget, hij, hmem, _⟩ :=
          runTail_fail_sound (steps.drop (steps.length - 2)) (steps.length - 2)
            j e hf
        have hbridge : steps[j]? = some (StepResult.err e) := by
          rw [← hget, List.getElem?_drop]
          congr 1
          omega
        exact ⟨List.mem_append_right _ hmem, hbridge⟩
      · rintro ⟨hjmem, hjget⟩
        rcases List.mem_append.mp hjmem with hjm | hjt
        · have hjlt : j < (steps.take (steps.length - 2)).length := by
            have := runMain_exec_bounds (steps.take (steps.length - 2)) 0 false j hjm
            omega
          have hjget2 : (steps.take (steps.length - 2))[j - 0]?
              = some (StepResult.err e) := by
            simp only [Nat.sub_zero]
            rw [List.getElem?_take, if_pos (by omega)]
            exact hjget
          have := runMain_fail_complete (steps.take (steps.length - 2)) 0 false
            j e hjm hjget2
          rw [hm] at this
          exact absurd this (by simp)
        · have hji : steps.length - 2 ≤ j :=
            (runTail_exec_bounds (steps.drop (steps.length - 2))
              (steps.length - 2) j hjt).1
          have hjget2 : (steps.drop (steps.length - 2))[j - (steps.length - 2)]?
              = some (StepResult.err e) := by
            rw [List.getElem?_drop]
            rw [show steps.length - 2 + (j - (steps.length - 2)) = j from by omega]
            exact hjget
          exact runTail_fail_complete (steps.drop (steps.length - 2))
            (steps.length - 2) j e hjt hjget2
    · intro hf x hx
      obtain ⟨_, hij, _, hmax⟩ :=
        runTail_fail_sound (steps.drop (steps.length - 2)) (steps.length - 2)
          j e hf
      rcases List.mem_append.mp hx with hxm | hxt
      · have := runMain_exec_bounds (steps.take (steps.length - 2)) 0 false x hxm
        omega
      · exact hmax x hxt

/-- Witness for C3 at a concrete pipeline whose second step raises: the
run fails with the wrapped pair `(1, "boom")` and no executed index
exceeds 1. -/
theorem edi_pipeline_failure_wraps_and_stops_witness :
    (edi_run [.ok false, .err "boom", .ok true, .ok false, .ok false]).failure
      = some (1, "boom")
    ∧ ∀ x ∈ (edi_run [.ok false, .err "boom", .ok true, .ok false, .ok false]).executed,
        x ≤ 1 := by
  have h := edi_pipeline_failure_wraps_and_stops
    [.ok false, .err "boom", .ok true, .ok false, .ok false] 1 "boom"
  have hf : (edi_run [.ok false, .err "boom", .ok true, .ok false, .ok false]).failure
      = some (1, "boom") := by decide
  exact ⟨hf, h.2 hf⟩

end Claims

namespace Cpr

/-- The date part of a Python `datetime` value (the constructed
`datetime(year, month, day)` of `cpr_to_birthdate`; hour and minute are
always zero there). -/
structure PyDate where
  year : Nat
  month : Nat
  day : Nat
deriving DecidableEq, Repr

/-- Gregorian leap-year rule, as used by Python's `datetime` validation. -/
def isLeap (y : Nat) : Bool :=
  y % 4 == 0 && (y % 100 != 0 || y % 400 == 0)

/-- Number of days in a month, as used by Python's `datetime` validation. -/
def daysInMonth (y m : Nat) : Nat :=
  if m = 2 then (if isLeap y then 29 else 28)
  else if m = 4 ∨ m = 6 ∨ m = 9 ∨ m = 11 then 30
  else 31

/-- Python's `datetime(year, month, day)` constructor: validates the
ranges (`MINYEAR = 1`, `MAXYEAR = 9999`) and raises `ValueError`
otherwise. -/
def datetime (y m d : Nat) : Except String PyDate :=
  if 1 ≤ y ∧ y ≤ 9999 ∧ 1 ≤ m ∧ m ≤ 12 ∧ 1 ≤ d ∧ d ≤ daysInMonth y m then
    .ok ⟨y, m, d⟩
  else
    .error "ValueError: day or month is out of range"

/-- Python's `int(...)` on a string of ASCII decimal digits. -/
def pyInt (cs : List Char) : Nat :=
  cs.foldl (fun a c => 10 * a + (c.toNat - 48)) 0

/-- `helper_functions.cpr_to_birthdate` (lines 8-40): validate that the
input is exactly 10 (ASCII) digits, slice out day, month, two-digit year
and the four-digit personal number, pick the century band from the
personal number, and let `datetime` validate month and day.  The final
`else` branch of the source (`Invalid CPR personal-number range`) is kept
even though a four-digit personal number can never reach it. -/
def cpr_to_birthdate (ssn : String) : Except String PyDate :=
  let cs := ssn.data
  if cs.length = 10 ∧ cs.all Char.isDigit then
    let day := pyInt (cs.take 2)
    let month := pyInt ((cs.drop 2).take 2)
    let yy := pyInt ((cs.drop 4).take 2)
    let ssss := pyInt (cs.drop 6)
    if ssss ≤ 1999 then
      datetime (if 37 ≤ yy then 1900 + yy else 2000 + yy) month day
    else if ssss ≤ 4999 then
      datetime (1900 + yy) month day
    else if ssss ≤ 8999 then
      datetime (if 37 ≤ yy then 1900 + yy else 2000 + yy) month day
    else if ssss ≤ 9999 then
      datetime (if 37 ≤ yy then 1800 + yy else 2000 + yy) month day
    else
      .error "ValueError: Invalid CPR personal-number range"
  else
    .error "ValueError: CPR number must be exactly 10 digits (DDMMYYSSSS)"

/-- The century bands exactly as the specification words them, for
comparison with the code's year computation: personal number 0-1999 gives
`1900+YY` if `YY ≥ 37` else `2000+YY`; 2000-4999 gives `1900+YY`;
5000-8999 gives `1900+YY` if `YY ≥ 37` else `2000+YY`; 9000-9999 gives
`1800+YY` if `YY ≥ 37` else `2000+YY`. -/
def claim_century_year (yy ssss : Nat) : Nat :=
  if ssss ≤ 1999 then (if 37 ≤ yy then 1900 + yy else 2000 + yy)
  else if ssss ≤ 4999 then 1900 + yy
  else if ssss ≤ 8999 then (if 37 ≤ yy then 1900 + yy else 2000 + yy)
  else (if 37 ≤ yy then 1800 + yy else 2000 + yy)

/-- A string of decimal digits denotes a value below `10 ^ length`. -/
theorem pyInt_lt (cs : List Char) (h : ∀ c ∈ cs, c.isDigit = true) :
    pyInt cs < 10 ^ cs.length := by
  suffices H : ∀ a, cs.foldl (fun a c => 10 * a + (c.toNat - 48)) a
      < (a + 1) * 10 ^ cs.length by
    simpa [pyInt] using H 0
  induction cs with
  | nil => intro a; simp
  | cons c rest ih =>
    intro a
    have hb : 48 ≤ c.toNat ∧ c.toNat ≤ 57 := by
      have := h c (List.mem_cons_self _ _)
      simpa [Char.isDigit, Char.le_def] using this
    have hc : c.toNat - 48 ≤ 9 := by omega
    have hrest : ∀ x ∈ rest, x.isDigit = true :=
      fun x hx => h x (List.mem_cons_of_mem _ hx)
    simp only [List.foldl_cons, List.length_cons]
    calc rest.foldl (fun a c => 10 * a + (c.toNat - 48)) (10 * a + (c.toNat - 48))
        < (10 * a + (c.toNat - 48) + 1) * 10 ^ rest.length := ih hrest _
      _ ≤ (a + 1) * 10 ^ (rest.length + 1) := by
          have h1 : 10 * a + (c.toNat - 48) + 1 ≤ 10 * (a + 1) := by omega
          calc (10 * a + (c.toNat - 48) + 1) * 10 ^ rest.length
              ≤ 10 * (a + 1) * 10 ^ rest.length :=
                Nat.mul_le_mul_right _ h1
            _ = (a + 1) * 10 ^ (rest.length + 1) := by ring

/-- C4: for every 10-digit all-digit CPR string `DDMMYYSSSS`,
`cpr_to_birthdate` derives the birth year according to the documented
century bands on the personal number `SSSS` (whenever it returns a date,
that date's year is `claim_century_year YY SSSS`), and for every input
whose length is not 10 or that contains a non-digit character it raises
`ValueError`. -/
theorem cpr_birthdate_century_bands (ssn : String) :
    ((ssn.data.length = 10 ∧ ssn.data.all Char.isDigit) →
      ∀ d, cpr_to_birthdate ssn = .ok d →
        d.year = claim_century_year (pyInt ((ssn.data.drop 4).take 2))
          (pyInt (ssn.data.drop 6)))
    ∧ (¬ (ssn.data.length = 10 ∧ ssn.data.all Char.isDigit) →
        cpr_to_birthdate ssn
          = .error "ValueError: CPR number must be exactly 10 digits (DDMMYYSSSS)") := by
  constructor
  · intro hfmt d hok
    have hssss : pyInt (ssn.data.drop 6) ≤ 9999 := by
      have hlen : (ssn.data.drop 6).length = 4 := by
        rw [List.length_drop, hfmt.1]
      have hd : ∀ c ∈ ssn.data.drop 6, c.isDigit = true := by
        intro c hc
        exact (List.all_eq_true.mp hfmt.2) c (List.mem_of_mem_drop hc)
      have := pyInt_lt _ hd
      rw [hlen] at this
      omega
    simp only [cpr_to_birthdate, hfmt.1, hfmt.2, and_self, if_true] at hok
    rw [claim_century_year]
    split_ifs at hok ⊢ <;>
      first
        | omega
        | (rw [datetime] at hok
           split_ifs at hok with hv
           · simp only [Except.ok.injEq] at hok
             subst hok
             rfl)
  · intro hfmt
    rw [cpr_to_birthdate, if_neg hfmt]

/-- Witness for C4: the 5-character string "31044" is rejected with a
`ValueError`, and "2505450001" (personal number 1, `YY = 45 ≥ 37`) gets
birth year 1945, matching the first century band. -/
theorem cpr_birthdate_century_bands_witness :
    cpr_to_birthdate "31044"
      = .error "ValueError: CPR number must be exactly 10 digits (DDMMYYSSSS)"
    ∧ (PyDate.year ⟨1945, 5, 25⟩)
        = claim_century_year (pyInt (("2505450001".data.drop 4).take 2))
          (pyInt ("2505450001".data.drop 6)) := by
  refine ⟨(cpr_birthdate_century_bands "31044").2 (by decide), ?_⟩
  exact (cpr_birthdate_century_bands "2505450001").1 (by decide)
    ⟨1945, 5, 25⟩ (by rfl)

end Cpr

namespace ZipHandler

/-- State of the bucket-filling loop of `split_zip` (lines 80-100):
`buckets` already flushed, the `current_bucket` being filled, and
`current_size`, the running compressed-size total of `current_bucket`. -/
structure SplitState where
  buckets : List (List Nat)
  cur : List Nat
  curSize : Nat
deriving DecidableEq, Repr

/-- One iteration of `split_zip`'s `for info in file_infos` loop (lines
84-100), over the entry's `compress_size`: an entry larger than `max_size`
flushes any current bucket and goes into a singleton bucket; an entry that
would overflow the current bucket flushes it first; otherwise the entry is
appended to the current bucket. -/
def splitStep (max : Nat) (st : SplitState) (size : Nat) : SplitState :=
  if max < size then
    { buckets := (if st.cur ≠ [] then st.buckets ++ [st.cur] else st.buckets)
        ++ [[size]],
      cur := [], curSize := 0 }
  else if max < st.curSize + size then
    { buckets := st.buckets ++ [st.cur], cur := [size], curSize := size }
  else
    { st with cur := st.cur ++ [size], curSize := st.curSize + size }

/-- The final flush of `split_zip` (lines 102-103): a nonempty current
bucket is appended. -/
def splitFinish (st : SplitState) : List (List Nat) :=
  if st.cur ≠ [] then st.buckets ++ [st.cur] else st.buckets

/-- The bucket partition `split_zip` computes for a ZIP whose entries have
the given compressed sizes. -/
def splitBuckets (sizes : List Nat) (max : Nat) : List (List Nat) :=
  splitFinish (sizes.foldl (splitStep max) ⟨[], [], 0⟩)

/-- Every bucket either keeps its aggregate within the threshold (with all
members individually within it) or is a singleton oversize entry. -/
def BucketsOk (max : Nat) (bs : List (List Nat)) : Prop :=
  ∀ b ∈ bs, (b.sum ≤ max ∧ ∀ x ∈ b, x ≤ max) ∨ ∃ x, b = [x] ∧ max < x

/-- Loop invariant: `curSize` tracks the current bucket's sum, the current
bucket is within the threshold, and all flushed buckets satisfy
`BucketsOk`. -/
def StInv (max : Nat) (st : SplitState) : Prop :=
  st.curSize = st.cur.sum ∧ st.cur.sum ≤ max ∧ (∀ x ∈ st.cur, x ≤ max)
    ∧ BucketsOk max st.buckets

/-- One loop iteration preserves the invariant. -/
theorem splitStep_inv (max : Nat) (st : SplitState) (s : Nat)
    (h : StInv max st) : StInv max (splitStep max st s) := by
  obtain ⟨hsz, hsum, helem, hbk⟩ := h
  rw [splitStep]
  split_ifs with h1 h2 h3
  · refine ⟨rfl, by simp, by simp, ?_⟩
    intro b hb
    simp only [List.mem_append, List.mem_singleton] at hb
    rcases hb with (hb | rfl) | rfl
    · exact hbk b hb
    · exact Or.inl ⟨hsum, helem⟩
    · exact Or.inr ⟨s, rfl, h1⟩
  · refine ⟨rfl, by simp, by simp, ?_⟩
    intro b hb
    simp only [List.mem_append, List.mem_singleton] at hb
    rcases hb with hb | rfl
    · exact hbk b hb
    · exact Or.inr ⟨s, rfl, h1⟩
  · refine ⟨by simp, by simp; omega, by simp; omega, ?_⟩
    intro b hb
    simp only [List.mem_append, List.mem_singleton] at hb
    rcases hb with hb | rfl
    · exact hbk b hb
    · exact Or.inl ⟨hsum, helem⟩
  · refine ⟨by simp [hsz], ?_, ?_, hbk⟩
    · simp only [List.sum_append, List.sum_singleton]
      omega
    · intro x hx
      simp only [List.mem_append, List.mem_singleton] at hx
      rcases hx with hx | rfl
      · exact helem x hx
      · omega

/-- The whole loop preserves the invariant. -/
theorem foldl_splitStep_inv (max : Nat) (l : List Nat) (st : SplitState)
    (h : StInv max st) : StInv max (l.foldl (splitStep max) st) := by
  induction l generalizing st with
  | nil => exact h
  | cons s rest ih => exact ih _ (splitStep_inv max st s h)

/-- The final flush preserves `BucketsOk`. -/
theorem splitFinish_ok (max : Nat) (st : SplitState) (h : StInv max st) :
    BucketsOk max (splitFinish st) := by
  obtain ⟨hsz, hsum, helem, hbk⟩ := h
  rw [splitFinish]
  split_ifs with hc
  · intro b hb
    simp only [List.mem_append, List.mem_singleton] at hb
    rcases hb with hb | rfl
    · exact hbk b hb
    · exact Or.inl ⟨hsum, helem⟩
  · exact hbk

/-- The computed partition satisfies `BucketsOk`. -/
theorem splitBuckets_ok (sizes : List Nat) (max : Nat) :
    BucketsOk max (splitBuckets sizes max) := by
  refine splitFinish_ok max _ (foldl_splitStep_inv max sizes _ ?_)
  exact ⟨rfl, by simp, by simp, by intro b hb; simp at hb⟩

/-- Flattening the loop state reproduces the processed prefix. -/
theorem foldl_splitStep_flatten (max : Nat) (l : List Nat) (st : SplitState) :
    (l.foldl (splitStep max) st).buckets.flatten ++ (l.foldl (splitStep max) st).cur
      = st.buckets.flatten ++ st.cur ++ l := by
  induction l generalizing st with
  | nil => simp
  | cons s rest ih =>
    rw [List.foldl_cons, ih]
    have hstep : (splitStep max st s).buckets.flatten ++ (splitStep max st s).cur
        = st.buckets.flatten ++ st.cur ++ [s] := by
      rw [splitStep]
      split_ifs with h1 h2 h3
      · simp [List.flatten_append]
      · simp only [ne_eq, not_not] at h2
        simp [h2, List.flatten_append]
      · simp [List.flatten_append]
      · simp
    rw [hstep]
    simp

/-- The partition loses no entry and invents none: its flattening is the
input entry list, in order. -/
theorem splitBuckets_flatten (sizes : List Nat) (max : Nat) :
    (splitBuckets sizes max).flatten = sizes := by
  have h := foldl_splitStep_flatten max sizes ⟨[], [], 0⟩
  simp only [List.flatten_nil, List.nil_append] at h
  rw [splitBuckets, splitFinish]
  split_ifs with hc
  · rw [List.flatten_append]
    simpa using h
  · simp only [ne_eq, not_not] at hc
    rw [hc] at h
    simpa using h

/-- Python exception kinds raised by the modelled fragment of
`split_zip`. -/
inductive PyError where
  | attributeError : String → PyError
  | fileNotFoundError : String → PyError
deriving DecidableEq, Repr

/-- The dynamic type of the `input_zip_path` argument: its annotation says
`str`, but `process_zip` (line 139-141) actually passes a
`pathlib.Path`. -/
inductive PyVal where
  | pyStr : String → PyVal
  | pyPath : List String → PyVal
deriving DecidableEq, Repr

/-- Index of the last `.` in a character list, if any. -/
def rfindDot : List Char → Option Nat
  | [] => none
  | c :: rest =>
    match rfindDot rest with
    | some i => some (i + 1)
    | none => if c = '.' then some 0 else none

/-- `pathlib.PurePath.stem`: the final component without its last suffix;
a suffix exists only when the last dot is neither the first nor the last
character of the name. -/
def pyStem (name : String) : String :=
  let cs := name.data
  match rfindDot cs with
  | some i => if 0 < i ∧ i < cs.length - 1 then String.mk (cs.take i) else name
  | none => name

/-- `pathlib.Path(s)` on a string: split into components. -/
def strToPath (s : String) : List String := s.splitOn "/"

/-- `Path(input_zip_path)` (line 65): accepts both `str` and `Path`. -/
def pathOf : PyVal → List String
  | .pyStr s => strToPath s
  | .pyPath p => p

/-- `PurePath.name`: the final path component. -/
def pathName (p : List String) : String := p.getLast?.getD ""

/-- The attribute access `input_zip_path.stem` at line 71: `str` has no
attribute `stem`, so the access raises `AttributeError`; on a `Path` it
yields the stem. -/
def PyVal.stem : PyVal → Except PyError String
  | .pyStr _ => .error (.attributeError "str object has no attribute stem")
  | .pyPath p => .ok (pyStem (pathName p))

/-- `split_zip` (lines 51-113): check the input file exists, resolve the
output directory (defaulting to `input_path.parent / f"{input_zip_path.stem}_split"`,
where `.stem` is read off the raw argument), then bucket the entries by
compressed size and write one part ZIP per bucket.  The result pairs the
output directory with the buckets written; an error result means the
function raised before writing any output (the directory computation
precedes `mkdir` and all bucket writes). -/
def split_zip (input_zip_path : PyVal) (output_dir : Option (List String))
    (max_size : Nat) (is_file : List String → Bool) (entries : List Nat) :
    Except PyError (List String × List (List Nat)) :=
  if ¬ is_file (pathOf input_zip_path) then
    .error (.fileNotFoundError "Input ZIP file does not exist")
  else
    match output_dir with
    | none =>
      match input_zip_path.stem with
      | .error e => .error e
      | .ok st =>
        .ok ((pathOf input_zip_path).dropLast ++ [st ++ "_split"],
          splitBuckets entries max_size)
    | some d => .ok (d, splitBuckets entries max_size)

/-- Whenever `split_zip` succeeds, the buckets it wrote are
`splitBuckets`. -/
theorem split_zip_ok_buckets (inp : PyVal) (od : Option (List String))
    (max : Nat) (fs : List String → Bool) (entries : List Nat)
    (dir : List String) (bs : List (List Nat))
    (h : split_zip inp od max fs entries = .ok (dir, bs)) :
    bs = splitBuckets entries max := by
  rw [split_zip.eq_def] at h
  split_ifs at h
  split at h
  · split at h
    · exact absurd h (by simp)
    · simp only [Except.ok.injEq, Prod.mk.injEq] at h
      exact h.2.symm
  · simp only [Except.ok.injEq, Prod.mk.injEq] at h
    exact h.2.symm

/-- C5: whenever `split_zip` produces buckets, then (a) if every entry's
compressed size is at most `max_size`, no bucket's aggregate compressed
size exceeds `max_size`, and (b) every entry whose compressed size exceeds
`max_size` occupies its own singleton bucket, unsplit. -/
theorem split_zip_bucket_bounds (inp : PyVal) (od : Option (List String))
    (max : Nat) (fs : List String → Bool) (entries : List Nat)
    (dir : List String) (bs : List (List Nat))
    (h : split_zip inp od max fs entries = .ok (dir, bs)) :
    ((∀ x ∈ entries, x ≤ max) → ∀ b ∈ bs, b.sum ≤ max)
    ∧ (∀ b ∈ bs, ∀ x ∈ b, max < x → b = [x]) := by
  have hbs := split_zip_ok_buckets inp od max fs entries dir bs h
  subst hbs
  have hok := splitBuckets_ok entries max
  constructor
  · intro hall b hb
    rcases hok b hb with ⟨hsum, _⟩ | ⟨x, rfl, hx⟩
    · exact hsum
    · have hxin : x ∈ entries := by
        rw [← splitBuckets_flatten entries max]
        exact List.mem_flatten.mpr ⟨[x], hb, List.mem_singleton_self x⟩
      exact absurd hx (by have := hall x hxin; omega)
  · intro b hb x hx hgt
    rcases hok b hb with ⟨_, helem⟩ | ⟨y, rfl, hy⟩
    · exact absurd hgt (by have := helem x hx; omega)
    · simp only [List.mem_singleton] at hx
      subst hx
      rfl

/-- Witness for C5 at entries `[3, 4, 2]` with threshold 5: the buckets
are `[[3], [4], [2]]`, each within the threshold, and no oversize entry
exists. -/
theorem split_zip_bucket_bounds_witness :
    (∀ b ∈ [[3], [4], [2]], List.sum b ≤ 5)
    ∧ (∀ b ∈ [[3], [4], [2]], ∀ x ∈ b, 5 < x → b = [x]) := by
  have h := split_zip_bucket_bounds (.pyPath ["a", "b.zip"]) none 5
    (fun _ => true) [3, 4, 2] (["a", "b_split"]) [[3], [4], [2]] (by rfl)
  exact ⟨fun b hb => h.1 (by decide) b hb, h.2⟩

/-- C10: calling `split_zip` with a `str` for `input_zip_path` and the
default `output_dir = None` raises `AttributeError` (from
`input_zip_path.stem`) before any output is written, even when the input
file exists; the documented default output directory
`input_path.parent / f"{stem}_split"` is reached exactly when a `Path` is
passed, as `process_zip` does. -/
theorem split_zip_str_vs_path (s : String) (p : List String) (max : Nat)
    (fs : List String → Bool) (entries : List Nat)
    (h1 : fs (strToPath s) = true) (h2 : fs p = true) :
    split_zip (.pyStr s) none max fs entries
      = .error (.attributeError "str object has no attribute stem")
    ∧ split_zip (.pyPath p) none max fs entries
      = .ok (p.dropLast ++ [pyStem (pathName p) ++ "_split"],
          splitBuckets entries max) := by
  constructor
  · rw [split_zip.eq_def]
    simp [pathOf, h1, PyVal.stem]
  · rw [split_zip.eq_def]
    simp [pathOf, h2, PyVal.stem]

/-- Witness for C10 at `"a/b.zip"` (string) versus `["a", "b.zip"]`
(path), with an existing file: the string input errors, the path input
returns the default split directory `a/b_split`. -/
theorem split_zip_str_vs_path_witness :
    split_zip (.pyStr "a/b.zip") none 5 (fun _ => true) [3, 4, 2]
      = .error (.attributeError "str object has no attribute stem")
    ∧ split_zip (.pyPath ["a", "b.zip"]) none 5 (fun _ => true) [3, 4, 2]
      = .ok (["a", "b_split"], [[3], [4], [2]]) := by
  have h := split_zip_str_vs_path "a/b.zip" ["a", "b.zip"] 5 (fun _ => true)
    [3, 4, 2] rfl rfl
  refine ⟨h.1, ?_⟩
  rw [h.2]
  rfl

end ZipHandler

namespace Presence

/-- One booking reminder dictionary as assembled by
`create_booking_reminders` (lines 25-53); only the fields the gating logic
reads are modelled: the reminder text and the `futureDateTime` used in the
existence filter. -/
structure Reminder where
  text : String
  futureDateTime : String
deriving DecidableEq, Repr

/-- `create_event_if_not_created` (lines 4-30): query events for the
patient; if the result is empty call `process_event()` once, otherwise
only log.  The returned number counts the `process_event` invocations. -/
def create_event_if_not_created (events : List String) : Nat :=
  if events.isEmpty then 1 else 0

/-- The reminder list built by `create_booking_reminders` (lines 25-53):
two reminders (16-year and 22-year) for a patient under 16, otherwise only
the 22-year reminder. -/
def build_reminders (is_patient_under_16 : Bool) (fd16 fd22 : String) :
    List Reminder :=
  match is_patient_under_16 with
  | true => [⟨"Frit valg fra 16 år", fd16⟩, ⟨"Arkiveres 22 år", fd22⟩]
  | false => [⟨"Arkiveres 22 år", fd22⟩]

/-- The gating loop of `create_booking_reminders` (lines 57-76): for each
reminder, query existing bookings by the reminder's `futureDateTime`; call
`create_booking_reminder` exactly when the query result is empty.  Returns
the reminders for which the creation action was invoked, in order. -/
def reminder_loop (lookup : String → List String) : List Reminder → List Reminder
  | [] => []
  | r :: rest =>
    if (lookup r.futureDateTime).isEmpty then r :: reminder_loop lookup rest
    else reminder_loop lookup rest

/-- `create_booking_reminders`: build the age-dependent reminder list and
run the presence-gated creation loop over it. -/
def create_booking_reminders (lookup : String → List String)
    (is_patient_under_16 : Bool) (fd16 fd22 : String) : List Reminder :=
  reminder_loop lookup (build_reminders is_patient_under_16 fd16 fd22)

/-- The gating loop creates a reminder as often as it occurs in its input
when its lookup is empty, and never when the lookup is non-empty. -/
theorem count_reminder_loop (lookup : String → List String) (rs : List Reminder)
    (r : Reminder) :
    (reminder_loop lookup rs).count r
      = if (lookup r.futureDateTime).isEmpty then rs.count r else 0 := by
  induction rs with
  | nil => simp [reminder_loop]
  | cons a rest ih =>
    rw [reminder_loop]
    by_cases hra : r = a
    · subst hra
      by_cases h1 : (lookup r.futureDateTime).isEmpty = true <;>
        simp [h1, ih, List.count_cons_self]
    · by_cases h1 : (lookup a.futureDateTime).isEmpty = true <;>
        by_cases h2 : (lookup r.futureDateTime).isEmpty = true <;>
          simp [h1, h2, ih, List.count_cons_of_ne hra]

/-- The built reminder list contains each of its reminders exactly once
(the two under-16 reminders differ in their text). -/
theorem build_reminders_count (u16 : Bool) (fd16 fd22 : String) (r : Reminder)
    (h : r ∈ build_reminders u16 fd16 fd22) :
    (build_reminders u16 fd16 fd22).count r = 1 := by
  cases u16 with
  | false =>
    simp only [build_reminders, List.mem_singleton] at h
    subst h
    simp only [build_reminders]
    rw [List.count_cons_self, List.count_nil]
  | true =>
    simp only [build_reminders, List.mem_cons, List.mem_singleton,
      List.not_mem_nil, or_false] at h
    have hne : (⟨"Frit valg fra 16 år", fd16⟩ : Reminder)
        ≠ ⟨"Arkiveres 22 år", fd22⟩ := by
      intro hc
      have ht := congrArg Reminder.text hc
      simp at ht
    simp only [build_reminders]
    rcases h with rfl | rfl
    · rw [List.count_cons_self, List.count_cons_of_ne hne, List.count_nil]
    · rw [List.count_cons_of_ne (Ne.symm hne), List.count_cons_self,
        List.count_nil]

/-- `handle_discharge_document` (handle_discharge_document.py lines
19-52): query existing discharge documents for the patient within the
one-month window; if the result is empty call
`create_document_from_template` once, otherwise only log.  The returned
number counts the creation invocations. -/
def handle_discharge_document (documents : List String) : Nat :=
  if documents.isEmpty then 1 else 0

/-- `check_and_create_medical_record_document` (create_medical_record.py
lines 14-41): query existing "Journaludskrift" documents; if the result is
empty call `create_digital_printet_journal` once, otherwise only log. -/
def check_and_create_medical_record_document (documents : List String) : Nat :=
  if documents.isEmpty then 1 else 0

/-- The EDI-receipt upload gate of `process.py` (lines 208-238): query
existing "EDI Portal - <patient>" documents; if the result is empty call
`create_document` once with the receipt PDF, otherwise only log. -/
def upload_edi_receipt_document (documents : List String) : Nat :=
  if documents.isEmpty then 1 else 0

/-- The administrative-note gate of `process.py` (lines 240-263): query
existing journal notes with the note text within the one-month window; if
the result is empty call `create_journal_note` once. -/
def create_administrative_note (notes : List String) : Nat :=
  if notes.isEmpty then 1 else 0

/-- A row of the document lookup used by
`check_and_send_discharge_document`; the gate reads the first row's
`SentToNemSMS` flag. -/
structure SendDoc where
  originalFilename : String
  sentToNemSMS : Bool
deriving DecidableEq, Repr

/-- `check_and_send_discharge_document` (send_discharge_document.py lines
35-55): `if list_of_documents_send_document and not
list_of_documents_send_document[0]["SentToNemSMS"]` send the document
once, otherwise only log.  Note this acts when the lookup is NON-empty
(with the sent flag unset) and does nothing on an empty lookup. -/
def check_and_send_discharge_document (documents : List SendDoc) : Nat :=
  match documents with
  | [] => 0
  | d :: _ => if d.sentToNemSMS then 0 else 1

/-- C7 counterexample: the claim's pattern ("empty lookup result → the
action is invoked exactly once, non-empty result → not invoked at all"),
instantiated at the presence-gated document-send action, is false on the
code: with an empty lookup `check_and_send_discharge_document` performs no
action, and with a non-empty unsent result it does act. -/
theorem presence_gated_send_counterexample :
    ¬ (check_and_send_discharge_document [] = 1
        ∧ check_and_send_discharge_document
            [⟨"Udskrivning til privat praksis fra 16 år", false⟩] = 0) := by
  decide

/-- C7 amended: every presence-gated creation action — event creation,
booking reminders, discharge-document creation, medical-record creation,
the EDI-receipt document upload and the administrative note — is invoked
exactly once when its existence lookup returns empty and not at all when
it returns non-empty; the presence-gated send of the discharge document is
the exception and inverts the pattern: it does nothing on an empty lookup
and sends exactly once when the lookup is non-empty with the first row's
sent flag unset. -/
theorem presence_gated_actions_amended
    (events docs mrdocs edidocs notes : List String)
    (lookup : String → List String) (u16 : Bool) (fd16 fd22 : String)
    (sdocs : List SendDoc) :
    ((events = [] → create_event_if_not_created events = 1)
      ∧ (events ≠ [] → create_event_if_not_created events = 0))
    ∧ (∀ r ∈ build_reminders u16 fd16 fd22,
        (create_booking_reminders lookup u16 fd16 fd22).count r
          = if lookup r.futureDateTime = [] then 1 else 0)
    ∧ ((docs = [] → handle_discharge_document docs = 1)
      ∧ (docs ≠ [] → handle_discharge_document docs = 0))
    ∧ ((mrdocs = [] → check_and_create_medical_record_document mrdocs = 1)
      ∧ (mrdocs ≠ [] → check_and_create_medical_record_document mrdocs = 0))
    ∧ ((edidocs = [] → upload_edi_receipt_document edidocs = 1)
      ∧ (edidocs ≠ [] → upload_edi_receipt_document edidocs = 0))
    ∧ ((notes = [] → create_administrative_note notes = 1)
      ∧ (notes ≠ [] → create_administrative_note notes = 0))
    ∧ ((sdocs = [] → check_and_send_discharge_document sdocs = 0)
      ∧ (∀ (d : SendDoc) (rest : List SendDoc), sdocs = d :: rest →
          check_and_send_discharge_document sdocs
            = if d.sentToNemSMS then 0 else 1)) := by
  refine ⟨⟨?_, ?_⟩, ?_, ⟨?_, ?_⟩, ⟨?_, ?_⟩, ⟨?_, ?_⟩, ⟨?_, ?_⟩, ⟨?_, ?_⟩⟩
  · intro h
    simp [create_event_if_not_created, h]
  · intro h
    simp [create_event_if_not_created, List.isEmpty_iff, h]
  · intro r hr
    rw [create_booking_reminders, count_reminder_loop,
      build_reminders_count u16 fd16 fd22 r hr]
    by_cases h : lookup r.futureDateTime = []
    · rw [if_pos (by simp [h]), if_pos h]
    · rw [if_neg (by simpa [List.isEmpty_iff] using h), if_neg h]
  · intro h
    simp [handle_discharge_document, h]
  · intro h
    simp [handle_discharge_document, List.isEmpty_iff, h]
  · intro h
    simp [check_and_create_medical_record_document, h]
  · intro h
    simp [check_and_create_medical_record_document, List.isEmpty_iff, h]
  · intro h
    simp [upload_edi_receipt_document, h]
  · intro h
    simp [upload_edi_receipt_document, List.isEmpty_iff, h]
  · intro h
    simp [create_administrative_note, h]
  · intro h
    simp [create_administrative_note, List.isEmpty_iff, h]
  · intro h
    simp [check_and_send_discharge_document, h]
  · intro d rest h
    subst h
    rfl

/-- Witness for the amended C7 at concrete lookup results: each creation
gate acts exactly once on an empty result and not at all on a non-empty
one, and the send gate acts on a non-empty unsent result. -/
theorem presence_gated_actions_amended_witness :
    create_event_if_not_created [] = 1
    ∧ (create_booking_reminders (fun _ => []) true "a" "b").count
        ⟨"Frit valg fra 16 år", "a"⟩ = 1
    ∧ handle_discharge_document [] = 1
    ∧ check_and_create_medical_record_document ["doc"] = 0
    ∧ upload_edi_receipt_document [] = 1
    ∧ create_administrative_note ["note"] = 0
    ∧ check_and_send_discharge_document [⟨"doc", false⟩] = 1 := by
  have h := presence_gated_actions_amended [] [] ["doc"] [] ["note"]
    (fun _ => []) true "a" "b" [⟨"doc", false⟩]
  refine ⟨h.1.1 rfl, ?_, h.2.2.1.1 rfl, h.2.2.2.1.2 (by simp),
    h.2.2.2.2.1.1 rfl, h.2.2.2.2.2.1.2 (by simp), ?_⟩
  · simpa using h.2.1 ⟨"Frit valg fra 16 år", "a"⟩ (by decide)
  · simpa using h.2.2.2.2.2.2.2 ⟨"doc", false⟩ [] rfl

end Presence

namespace Polling

/-- What one poll iteration of `wait_for_control` observes: the control
exists, it does not exist, or resolving it raised (the `except Exception`
at lines 46-47, which is caught and retried). -/
inductive Poll where
  | found
  | absent
  | errored : String → Poll
deriving DecidableEq, Repr

/-- The `TimeoutError` of `wait_for_control` (lines 53-55). -/
def wfc_timeout_msg : String :=
  "TimeoutError: control was not found within the timeout"

/-- The `TimeoutError` of `wait_for_control_to_disappear` (lines
86-88). -/
def wfcd_timeout_msg : String :=
  "TimeoutError: control did not disappear within the timeout period"

/-- `wait_for_control` (lines 16-55) over the finite sequence of poll
observations its timeout window allows: return (the index of) the control
at the first iteration at which it exists; caught errors and non-existence
just retry; an exhausted window raises `TimeoutError`. -/
def wait_for_control : List Poll → Except String Nat
  | [] => .error wfc_timeout_msg
  | .found :: _ => .ok 0
  | .absent :: rest =>
    match wait_for_control rest with
    | .ok i => .ok (i + 1)
    | .error e => .error e
  | .errored _ :: rest =>
    match wait_for_control rest with
    | .ok i => .ok (i + 1)
    | .error e => .error e

/-- `wait_for_control_to_disappear` (lines 58-88): return `True` at the
first iteration at which the control does not exist; caught errors and
existence just retry; an exhausted window raises `TimeoutError` (the
docstring's `False` return does not exist in the code). -/
def wait_for_control_to_disappear : List Poll → Except String Bool
  | [] => .error wfcd_timeout_msg
  | .absent :: _ => .ok true
  | .found :: rest => wait_for_control_to_disappear rest
  | .errored _ :: rest => wait_for_control_to_disappear rest

/-- The element is returned at the first iteration at which it exists. -/
theorem wfc_first (polls : List Poll) (i : Nat)
    (hget : polls[i]? = some .found)
    (hfirst : ∀ j < i, polls[j]? ≠ some Poll.found) :
    wait_for_control polls = .ok i := by
  induction polls generalizing i with
  | nil => simp at hget
  | cons p rest ih =>
    cases i with
    | zero =>
      simp only [List.getElem?_cons_zero, Option.some.injEq] at hget
      subst hget
      rfl
    | succ i =>
      simp only [List.getElem?_cons_succ] at hget
      have hp : p ≠ Poll.found := by
        intro hc
        exact hfirst 0 (Nat.succ_pos i) (by simp [hc])
      have hfirst2 : ∀ j < i, rest[j]? ≠ some Poll.found := by
        intro j hj
        have := hfirst (j + 1) (by omega)
        simpa using this
      have hr := ih i hget hfirst2
      match p, hp with
      | .absent, _ => simp [wait_for_control, hr]
      | .errored e, _ => simp [wait_for_control, hr]

/-- If the element never exists within the window, the wait raises
`TimeoutError`. -/
theorem wfc_never (polls : List Poll)
    (h : ∀ p ∈ polls, p ≠ Poll.found) :
    wait_for_control polls = .error wfc_timeout_msg := by
  induction polls with
  | nil => rfl
  | cons p rest ih =>
    have hp : p ≠ Poll.found := h p (List.mem_cons_self _ _)
    have hr := ih fun q hq => h q (List.mem_cons_of_mem _ hq)
    match p, hp with
    | .absent, _ => simp [wait_for_control, hr]
    | .errored e, _ => simp [wait_for_control, hr]

/-- The only failure mode of `wait_for_control` is the `TimeoutError`:
errors during individual polls are never surfaced or swallowed into a
non-timeout outcome. -/
theorem wfc_shape (polls : List Poll) :
    wait_for_control polls = .error wfc_timeout_msg
      ∨ ∃ k, wait_for_control polls = .ok k := by
  induction polls with
  | nil => exact Or.inl rfl
  | cons p rest ih =>
    match p with
    | .found => exact Or.inr ⟨0, rfl⟩
    | .absent =>
      rcases ih with h | ⟨k, h⟩
      · exact Or.inl (by simp [wait_for_control, h])
      · exact Or.inr ⟨k + 1, by simp [wait_for_control, h]⟩
    | .errored e =>
      rcases ih with h | ⟨k, h⟩
      · exact Or.inl (by simp [wait_for_control, h])
      · exact Or.inr ⟨k + 1, by simp [wait_for_control, h]⟩

/-- If the element never disappears within the window, the disappearance
wait raises `TimeoutError`. -/
theorem wfcd_never (polls : List Poll)
    (h : ∀ p ∈ polls, p ≠ Poll.absent) :
    wait_for_control_to_disappear polls = .error wfcd_timeout_msg := by
  induction polls with
  | nil => rfl
  | cons p rest ih =>
    have hp : p ≠ Poll.absent := h p (List.mem_cons_self _ _)
    have hr := ih fun q hq => h q (List.mem_cons_of_mem _ hq)
    match p, hp with
    | .found, _ => simpa [wait_for_control_to_disappear] using hr
    | .errored e, _ => simpa [wait_for_control_to_disappear] using hr

/-- The only failure mode of the disappearance wait is `TimeoutError`. -/
theorem wfcd_shape (polls : List Poll) :
    wait_for_control_to_disappear polls = .error wfcd_timeout_msg
      ∨ wait_for_control_to_disappear polls = .ok true := by
  induction polls with
  | nil => exact Or.inl rfl
  | cons p rest ih =>
    match p with
    | .found => simpa [wait_for_control_to_disappear] using ih
    | .absent => exact Or.inr rfl
    | .errored e => simpa [wait_for_control_to_disappear] using ih

/-- C8: `wait_for_control` returns the element at the first poll iteration
at which it exists, and raises `TimeoutError` when it never exists within
the window; `wait_for_control_to_disappear` raises `TimeoutError` when the
element never disappears within the window; and for both, the only
possible failure surfaced to the caller is that timeout error — failures
are never silently swallowed. -/
theorem polling_waits_spec (polls : List Poll) (i : Nat) :
    (polls[i]? = some .found → (∀ j < i, polls[j]? ≠ some Poll.found) →
      wait_for_control polls = .ok i)
    ∧ ((∀ p ∈ polls, p ≠ Poll.found) →
        wait_for_control polls = .error wfc_timeout_msg)
    ∧ (wait_for_control polls = .error wfc_timeout_msg
        ∨ ∃ k, wait_for_control polls = .ok k)
    ∧ ((∀ p ∈ polls, p ≠ Poll.absent) →
        wait_for_control_to_disappear polls = .error wfcd_timeout_msg)
    ∧ (wait_for_control_to_disappear polls = .error wfcd_timeout_msg
        ∨ wait_for_control_to_disappear polls = .ok true) :=
  ⟨fun h1 h2 => wfc_first polls i h1 h2, wfc_never polls, wfc_shape polls,
    wfcd_never polls, wfcd_shape polls⟩

/-- Witness for C8: the control found at the third poll is returned there;
a window in which it never exists (or never disappears) ends in the
respective `TimeoutError`. -/
theorem polling_waits_spec_witness :
    wait_for_control [.absent, .errored "boom", .found] = .ok 2
    ∧ wait_for_control [.absent, .errored "boom"] = .error wfc_timeout_msg
    ∧ wait_for_control_to_disappear [.found, .errored "boom"]
        = .error wfcd_timeout_msg := by
  have h1 := (polling_waits_spec [.absent, .errored "boom", .found] 2).1
    (by rfl) (by decide)
  have h2 := (polling_waits_spec [.absent, .errored "boom"] 0).2.1 (by decide)
  have h3 := (polling_waits_spec [.found, .errored "boom"] 0).2.2.2.1 (by decide)
  exact ⟨h1, h2, h3⟩

end Polling

namespace Upload

/-- How the progress-polling loop of `edi_portal_upload_files` exits:
a poll that timed out without finding the "in progress" indicator is
treated as the upload having finished; alternatively the 180-second budget
runs out while the indicator is still present. -/
inductive UploadExit where
  | assumedFinished
  | budgetExhausted
deriving DecidableEq, Repr

/-- The `while not element_gone and timeout > 0` loop of
`edi_portal_upload_files` (lines 439-461): each iteration polls for the
"in progress" text with a 5-second `wait_for_control`; if found, sleep 5
seconds and decrement the budget by 5; if the poll raises `TimeoutError`,
catch it and exit normally, assuming the upload finished.  `results k` is
the outcome of the k-th poll.  An `.error` result would model an exception
escaping the loop; the catch clause makes that impossible. -/
def uploadLoop (results : Nat → Except String Nat) (k t : Nat) :
    Except String UploadExit :=
  if _ht : t = 0 then .ok .budgetExhausted
  else
    match results k with
    | .error _ => .ok .assumedFinished
    | .ok _ => uploadLoop results (k + 1) (t - 5)
termination_by t
decreasing_by simp_wf; omega

/-- The progress-polling phase of `edi_portal_upload_files` (lines
413-461): overall budget 180 seconds, decremented in 5-second steps. -/
def edi_portal_upload_wait (results : Nat → Except String Nat) :
    Except String UploadExit :=
  uploadLoop results 0 180

/-- If the polls find the indicator until poll `m` times out, and the
budget still allows poll `m`, the loop exits normally, assuming the upload
finished. -/
theorem uploadLoop_err (results : Nat → Except String Nat) (m : Nat) :
    ∀ k t e, (∀ j < m, ∃ c, results (k + j) = .ok c) →
      results (k + m) = .error e → 5 * m < t →
      uploadLoop results k t = .ok .assumedFinished := by
  induction m with
  | zero =>
    intro k t e _ herr ht
    rw [uploadLoop]
    rw [dif_neg (by omega)]
    simp only [Nat.add_zero] at herr
    rw [herr]
  | succ m ih =>
    intro k t e hpre herr ht
    obtain ⟨c, hc⟩ := hpre 0 (Nat.succ_pos m)
    simp only [Nat.add_zero] at hc
    rw [uploadLoop]
    rw [dif_neg (by omega)]
    rw [hc]
    refine ih (k + 1) (t - 5) e ?_ ?_ (by omega)
    · intro j hj
      have := hpre (j + 1) (by omega)
      simpa [Nat.add_assoc, Nat.add_comm 1 j] using this
    · have : k + 1 + m = k + (m + 1) := by omega
      rw [this]
      exact herr

/-- The loop always returns normally: every exit is an `.ok`. -/
theorem uploadLoop_total (results : Nat → Except String Nat) :
    ∀ t k, ∃ x, uploadLoop results k t = .ok x := by
  intro t
  induction t using Nat.strong_induction_on with
  | _ t ih =>
    intro k
    by_cases ht : t = 0
    · subst ht
      exact ⟨.budgetExhausted, by rw [uploadLoop]; rfl⟩
    · rw [uploadLoop, dif_neg ht]
      cases hres : results k with
      | error e => exact ⟨.assumedFinished, rfl⟩
      | ok c => exact ih (t - 5) (by omega) (k + 1)

/-- C9: the "in progress" indicator is polled within an overall budget of
180 seconds decremented in 5-second steps; when poll `k` (with `5·k`
seconds of the budget spent) times out without finding the indicator, the
function treats the upload as finished and returns normally; and for every
poll outcome stream the phase returns normally rather than raising. -/
theorem upload_timeout_treated_as_finished
    (results : Nat → Except String Nat) (k : Nat) (e : String)
    (hpre : ∀ j < k, ∃ c, results j = .ok c)
    (herr : results k = .error e) (hk : 5 * k < 180) :
    edi_portal_upload_wait results = .ok .assumedFinished
    ∧ ∀ g : Nat → Except String Nat, ∃ x, edi_portal_upload_wait g = .ok x := by
  constructor
  · exact uploadLoop_err results k 0 180 e (by simpa using hpre)
      (by simpa using herr) hk
  · intro g
    exact uploadLoop_total g 180 0

/-- Witness for C9: the indicator is present for two polls and the third
poll times out; the phase reports the upload as finished. -/
theorem upload_timeout_treated_as_finished_witness :
    edi_portal_upload_wait
        (fun j => if j < 2 then .ok 0 else .error "TimeoutError")
      = .ok .assumedFinished := by
  have h := upload_timeout_treated_as_finished
    (fun j => if j < 2 then .ok 0 else .error "TimeoutError") 2 "TimeoutError"
    (fun j hj => ⟨0, by simp [hj]⟩) (by simp) (by omega)
  exact h.1

end Upload

namespace Receipt

/-- One row of the sent-messages results table as read by
`edi_portal_get_journal_sent_receip` (lines 548-564): column 5 is the
message text, column 1 the timestamp text. -/
structure TableRow where
  message : String
  dateStr : String
deriving DecidableEq, Repr

/-- The inner `_parse_date` helper (lines 539-546):
`datetime.strptime(date_str, "%d-%m-%Y %H:%M")`, returning `None` on
empty or unparsable input.  A parsed timestamp is encoded as a single
natural number, strictly monotone in Python's `datetime` ordering
(lexicographic on year, month, day, hour, minute), so the code's
`parsed_date > latest_date` comparison is `<` on the encoding. -/
def parse_date (s : String) : Option Nat :=
  match s.data with
  | [d1, d2, '-', m1, m2, '-', y1, y2, y3, y4, ' ', h1, h2, ':', n1, n2] =>
    if d1.isDigit ∧ d2.isDigit ∧ m1.isDigit ∧ m2.isDigit ∧ y1.isDigit
        ∧ y2.isDigit ∧ y3.isDigit ∧ y4.isDigit ∧ h1.isDigit ∧ h2.isDigit
        ∧ n1.isDigit ∧ n2.isDigit then
      let day := 10 * (d1.toNat - 48) + (d2.toNat - 48)
      let month := 10 * (m1.toNat - 48) + (m2.toNat - 48)
      let year := 1000 * (y1.toNat - 48) + 100 * (y2.toNat - 48)
        + 10 * (y3.toNat - 48) + (y4.toNat - 48)
      let hour := 10 * (h1.toNat - 48) + (h2.toNat - 48)
      let minute := 10 * (n1.toNat - 48) + (n2.toNat - 48)
      if 1 ≤ year ∧ 1 ≤ month ∧ month ≤ 12 ∧ 1 ≤ day
          ∧ day ≤ Cpr.daysInMonth year month ∧ hour ≤ 23 ∧ minute ≤ 59 then
        some (minute + 60 * (hour + 24 * (day + 32 * (month + 13 * year))))
      else none
    else none
  | _ => none

/-- The per-row update of `latest_matching_row` / `latest_date` (lines
556-564): on a subject-equal row with a parsable timestamp strictly later
than the current best, remember this row; otherwise keep the current
state.  Rows that do not match, or whose timestamp does not parse, leave
the state unchanged. -/
def updateAcc (subject : String) (i : Nat) (r : TableRow)
    (acc : Option (Nat × Nat)) : Option (Nat × Nat) :=
  if r.message = subject then
    match parse_date r.dateStr with
    | none => acc
    | some d =>
      match acc with
      | none => some (i, d)
      | some (j, best) => if best < d then some (i, d) else some (j, best)
  else acc

/-- The `for row in range(1, row_count)` scan (lines 548-564), beginning
at absolute table index `i`. -/
def scanFrom (subject : String) :
    Nat → List TableRow → Option (Nat × Nat) → Option (Nat × Nat)
  | _, [], acc => acc
  | i, r :: rest, acc =>
    scanFrom subject (i + 1) rest (updateAcc subject i r acc)

/-- The row-selection phase of `edi_portal_get_journal_sent_receip`
(lines 536-575): scan the table rows after the header row (index 0) and
either return the selected row index (with which the function then clicks
the row's menu) or raise `RuntimeError("Message not sent.")`. -/
def edi_portal_get_journal_sent_receip (subject : String)
    (rows : List TableRow) : Except String Nat :=
  match scanFrom subject 1 (rows.drop 1) none with
  | some (j, _) => .ok j
  | none => .error "Message not sent."

/-- A row whose message differs from the subject leaves the scan state
unchanged. -/
theorem updateAcc_not_subject (subject : String) (i : Nat) (r : TableRow)
    (acc : Option (Nat × Nat)) (hm : r.message ≠ subject) :
    updateAcc subject i r acc = acc := by
  simp [updateAcc, hm]

/-- A subject-equal row with an unparsable timestamp is skipped. -/
theorem updateAcc_unparsable (subject : String) (i : Nat) (r : TableRow)
    (acc : Option (Nat × Nat)) (hm : r.message = subject)
    (hp : parse_date r.dateStr = none) :
    updateAcc subject i r acc = acc := by
  simp [updateAcc, hm, hp]

/-- The first subject-equal parsable row becomes the candidate. -/
theorem updateAcc_first (subject : String) (i : Nat) (r : TableRow)
    (d : Nat) (hm : r.message = subject)
    (hp : parse_date r.dateStr = some d) :
    updateAcc subject i r none = some (i, d) := by
  simp [updateAcc, hm, hp]

/-- A strictly later subject-equal parsable row replaces the candidate. -/
theorem updateAcc_newer (subject : String) (i : Nat) (r : TableRow)
    (d j0 best : Nat) (hm : r.message = subject)
    (hp : parse_date r.dateStr = some d) (hlt : best < d) :
    updateAcc subject i r (some (j0, best)) = some (i, d) := by
  simp [updateAcc, hm, hp, hlt]

/-- A row not strictly later than the candidate leaves it in place. -/
theorem updateAcc_keep (subject : String) (i : Nat) (r : TableRow)
    (d j0 best : Nat) (hm : r.message = subject)
    (hp : parse_date r.dateStr = some d) (hlt : ¬ best < d) :
    updateAcc subject i r (some (j0, best)) = some (j0, best) := by
  simp [updateAcc, hm, hp, hlt]

/-- If the scan selects a row, that row is in the scanned region,
subject-equal, with a parsable timestamp (unless it was the incoming
accumulator). -/
theorem scanFrom_sound (subject : String) (l : List TableRow) :
    ∀ (i : Nat) (acc : Option (Nat × Nat)) (j d : Nat),
      scanFrom subject i l acc = some (j, d) →
      (∃ (k : Nat) (r : TableRow), l[k]? = some r ∧ j = i + k
        ∧ r.message = subject ∧ parse_date r.dateStr = some d)
      ∨ acc = some (j, d) := by
  induction l with
  | nil =>
    intro i acc j d h
    exact Or.inr h
  | cons r rest ih =>
    intro i acc j d h
    rw [scanFrom] at h
    rcases ih (i + 1) _ j d h with ⟨k, r2, hget, hj, hmsg, hparse⟩ | hacc
    · exact Or.inl ⟨k + 1, r2, by simpa using hget, by omega, hmsg, hparse⟩
    · by_cases hm : r.message = subject
      · cases hp : parse_date r.dateStr with
        | none =>
          rw [updateAcc_unparsable subject i r acc hm hp] at hacc
          exact Or.inr hacc
        | some d2 =>
          cases acc with
          | none =>
            rw [updateAcc_first subject i r d2 hm hp] at hacc
            simp only [Option.some.injEq, Prod.mk.injEq] at hacc
            obtain ⟨rfl, rfl⟩ := hacc
            exact Or.inl ⟨0, r, by simp, by omega, hm, hp⟩
          | some jb =>
            obtain ⟨j0, best⟩ := jb
            by_cases hlt : best < d2
            · rw [updateAcc_newer subject i r d2 j0 best hm hp hlt] at hacc
              simp only [Option.some.injEq, Prod.mk.injEq] at hacc
              obtain ⟨rfl, rfl⟩ := hacc
              exact Or.inl ⟨0, r, by simp, by omega, hm, hp⟩
            · rw [updateAcc_keep subject i r d2 j0 best hm hp hlt] at hacc
              exact Or.inr hacc
      · rw [updateAcc_not_subject subject i r acc hm] at hacc
        exact Or.inr hacc

/-- The selected timestamp dominates every subject-equal parsable row of
the scanned region, and the incoming accumulator. -/
theorem scanFrom_max (subject : String) (l : List TableRow) :
    ∀ (i : Nat) (acc : Option (Nat × Nat)) (j d : Nat),
      scanFrom subject i l acc = some (j, d) →
      (∀ (k : Nat) (r2 : TableRow) (d2 : Nat), l[k]? = some r2 →
        r2.message = subject → parse_date r2.dateStr = some d2 → d2 ≤ d)
      ∧ (∀ (j0 d0 : Nat), acc = some (j0, d0) → d0 ≤ d) := by
  induction l with
  | nil =>
    intro i acc j d h
    rw [scanFrom] at h
    refine ⟨?_, ?_⟩
    · intro k r2 d2 hget
      simp at hget
    · intro j0 d0 hacc
      rw [hacc] at h
      simp only [Option.some.injEq, Prod.mk.injEq] at h
      omega
  | cons r rest ih =>
    intro i acc j d h
    rw [scanFrom] at h
    have hrest := ih (i + 1) _ j d h
    constructor
    · intro k r2 d2 hget hmsg hparse
      cases k with
      | zero =>
        simp only [List.getElem?_cons_zero, Option.some.injEq] at hget
        subst hget
        cases acc with
        | none =>
          exact hrest.2 i d2 (by rw [updateAcc_first subject i r d2 hmsg hparse])
        | some jb =>
          obtain ⟨j0, best⟩ := jb
          by_cases hlt : best < d2
          · exact hrest.2 i d2
              (by rw [updateAcc_newer subject i r d2 j0 best hmsg hparse hlt])
          · have hb := hrest.2 j0 best
              (by rw [updateAcc_keep subject i r d2 j0 best hmsg hparse hlt])
            omega
      | succ k =>
        simp only [List.getElem?_cons_succ] at hget
        exact hrest.1 k r2 d2 hget hmsg hparse
    · intro j0 d0 hacc
      subst hacc
      by_cases hm : r.message = subject
      · cases hp : parse_date r.dateStr with
        | none =>
          exact hrest.2 j0 d0
            (by rw [updateAcc_unparsable subject i r _ hm hp])
        | some d2 =>
          by_cases hlt : d0 < d2
          · have := hrest.2 i d2
              (by rw [updateAcc_newer subject i r d2 j0 d0 hm hp hlt])
            omega
          · exact hrest.2 j0 d0
              (by rw [updateAcc_keep subject i r d2 j0 d0 hm hp hlt])
      · exact hrest.2 j0 d0 (by rw [updateAcc_not_subject subject i r _ hm])

/-- The scan comes back empty exactly when it started empty and no
subject-equal row of the region has a parsable timestamp; in particular,
unparsable rows are skipped without aborting the scan. -/
theorem scanFrom_none (subject : String) (l : List TableRow) :
    ∀ (i : Nat) (acc : Option (Nat × Nat)),
      scanFrom subject i l acc = none ↔
      (acc = none ∧ ∀ (k : Nat) (r : TableRow), l[k]? = some r →
        r.message = subject → parse_date r.dateStr = none) := by
  induction l with
  | nil =>
    intro i acc
    rw [scanFrom]
    constructor
    · intro h
      refine ⟨h, ?_⟩
      intro k r hget
      simp at hget
    · intro h
      exact h.1
  | cons r rest ih =>
    intro i acc
    rw [scanFrom, ih]
    constructor
    · rintro ⟨hacc2, hrest⟩
      by_cases hm : r.message = subject
      · cases hp : parse_date r.dateStr with
        | none =>
          rw [updateAcc_unparsable subject i r acc hm hp] at hacc2
          refine ⟨hacc2, ?_⟩
          intro k r2 hget hmsg
          cases k with
          | zero =>
            simp only [List.getElem?_cons_zero, Option.some.injEq] at hget
            subst hget
            exact hp
          | succ k =>
            simp only [List.getElem?_cons_succ] at hget
            exact hrest k r2 hget hmsg
        | some d2 =>
          exfalso
          cases acc with
          | none =>
            rw [updateAcc_first subject i r d2 hm hp] at hacc2
            simp at hacc2
          | some jb =>
            obtain ⟨j0, best⟩ := jb
            by_cases hlt : best < d2
            · rw [updateAcc_newer subject i r d2 j0 best hm hp hlt] at hacc2
              simp at hacc2
            · rw [updateAcc_keep subject i r d2 j0 best hm hp hlt] at hacc2
              simp at hacc2
      · rw [updateAcc_not_subject subject i r acc hm] at hacc2
        refine ⟨hacc2, ?_⟩
        intro k r2 hget hmsg
        cases k with
        | zero =>
          simp only [List.getElem?_cons_zero, Option.some.injEq] at hget
          subst hget
          exact absurd hmsg hm
        | succ k =>
          simp only [List.getElem?_cons_succ] at hget
          exact hrest k r2 hget hmsg
    · rintro ⟨hacc, hall⟩
      refine ⟨?_, fun k r2 hget hmsg => hall (k + 1) r2 (by simpa using hget) hmsg⟩
      subst hacc
      by_cases hm : r.message = subject
      · have hp := hall 0 r (by simp) hm
        rw [updateAcc_unparsable subject i r none hm hp]
      · rw [updateAcc_not_subject subject i r none hm]

/-- C6: scanning the results table rows after the header row, a row
returned by `edi_portal_get_journal_sent_receip` lies after the header, is
message-equal to the expected subject, has a timestamp parsable as
`DD-MM-YYYY HH:MM`, and its timestamp is the latest among all such rows
(rows with unparsable timestamps are skipped without aborting the scan);
and the function fails with the "Message not sent." error exactly when no
subject-equal row after the header has a parsable timestamp. -/
theorem receipt_scan_selects_latest (subject : String) (rows : List TableRow) :
    (∀ (j : Nat), edi_portal_get_journal_sent_receip subject rows = .ok j →
      1 ≤ j ∧ ∃ (r : TableRow) (d : Nat), rows[j]? = some r
        ∧ r.message = subject ∧ parse_date r.dateStr = some d
        ∧ ∀ (k : Nat) (r2 : TableRow) (d2 : Nat), 1 ≤ k → rows[k]? = some r2 →
            r2.message = subject → parse_date r2.dateStr = some d2 → d2 ≤ d)
    ∧ (edi_portal_get_journal_sent_receip subject rows
          = .error "Message not sent."
        ↔ ∀ (k : Nat) (r : TableRow), 1 ≤ k → rows[k]? = some r →
            r.message = subject → parse_date r.dateStr = none) := by
  constructor
  · intro j hok
    rw [edi_portal_get_journal_sent_receip] at hok
    cases hscan : scanFrom subject 1 (rows.drop 1) none with
    | none =>
      rw [hscan] at hok
      exact absurd hok (by simp)
    | some jd =>
      obtain ⟨j1, d⟩ := jd
      rw [hscan] at hok
      simp only [Except.ok.injEq] at hok
      subst hok
      rcases scanFrom_sound subject _ 1 none j1 d hscan with
        ⟨k, r, hget, hj, hmsg, hparse⟩ | habs
      · have hmax := (scanFrom_max subject _ 1 none j1 d hscan).1
        have hrows : rows[j1]? = some r := by
          rw [hj, ← List.getElem?_drop]
          exact hget
        refine ⟨by omega, r, d, hrows, hmsg, hparse, ?_⟩
        intro k2 r2 d2 hk2 hget2 hmsg2 hparse2
        refine hmax (k2 - 1) r2 d2 ?_ hmsg2 hparse2
        rw [List.getElem?_drop, show 1 + (k2 - 1) = k2 from by omega]
        exact hget2
      · simp at habs
  · rw [edi_portal_get_journal_sent_receip]
    cases hscan : scanFrom subject 1 (rows.drop 1) none with
    | none =>
      constructor
      · intro _
        have hnone := (scanFrom_none subject _ 1 none).mp hscan
        intro k r hk hget hmsg
        refine hnone.2 (k - 1) r ?_ hmsg
        rw [List.getElem?_drop, show 1 + (k - 1) = k from by omega]
        exact hget
      · intro _
        rfl
    | some jd =>
      obtain ⟨j1, d⟩ := jd
      constructor
      · intro h
        exact absurd h (by simp)
      · intro hall
        exfalso
        have hcontra : scanFrom subject 1 (rows.drop 1) none = none := by
          refine (scanFrom_none subject _ 1 none).mpr ⟨rfl, ?_⟩
          intro k r hget hmsg
          refine hall (1 + k) r (by omega) ?_ hmsg
          rw [← List.getElem?_drop]
          exact hget
        rw [hscan] at hcontra
        exact absurd hcontra (by simp)

/-- Witness for C6: a table whose only subject-equal row after the header
has an unparsable timestamp ends in the "Message not sent." error. -/
theorem receipt_scan_selects_latest_witness :
    edi_portal_get_journal_sent_receip "subj"
        [⟨"hdr", "x"⟩, ⟨"subj", "nodate"⟩, ⟨"other", "01-01-2025 10:00"⟩]
      = .error "Message not sent." := by
  refine (receipt_scan_selects_latest "subj" _).2.mpr ?_
  intro k r hk hget hmsg
  have hk3 : k < 3 := by
    by_contra hc
    rw [List.getElem?_eq_none (by simp; omega)] at hget
    exact absurd hget (by simp)
  interval_cases k
  · simp only [List.getElem?_cons_succ, List.getElem?_cons_zero,
      Option.some.injEq] at hget
    subst hget
    rfl
  · simp only [List.getElem?_cons_succ, List.getElem?_cons_zero,
      Option.some.injEq] at hget
    subst hget
    exact absurd hmsg (by decide)

end Receipt
